import Mathlib

/-!
Shallow embedding of the Vatix backend submit-order path:
the orders route (Fastify), the position update helper, the audit log
services over Redis streams, the admission lock, the persisted schema,
and the in-memory order book.

Prices are JS numbers used as decimal fractions; they are modelled as
rationals.  Quantities are JS integers, modelled as `Int` (the sources
subtract freely, so values can go negative).  Redis and the database are
modelled as explicit association-list states.
-/

/-- Order side, `"BUY" | "SELL"` in the sources. -/
inductive OrderSide
  | BUY
  | SELL
deriving DecidableEq, Repr

/-- Order status constants, the `ORDER_STATUS` object of the orders route
and the `OrderStatus` SQL enum. -/
inductive OrderStatus
  | OPEN
  | PARTIALLY_FILLED
  | FILLED
  | CANCELLED
deriving DecidableEq, Repr

/-- Taker order status computation, step 6 of the orders route transaction:
`remainingQuantity = quantity - totalFilledQuantity`; the status is `FILLED`
when the remainder is 0, else `PARTIALLY_FILLED` when something was filled,
else `OPEN`. -/
def takerOrderStatus (quantity totalFilledQuantity : ℤ) : OrderStatus :=
  if quantity - totalFilledQuantity = 0 then OrderStatus.FILLED
  else if totalFilledQuantity > 0 then OrderStatus.PARTIALLY_FILLED
  else OrderStatus.OPEN

/-- One entry of `matchResult.matches` as consumed by the orders route. -/
structure MatchEntry where
  price : ℚ
  quantity : ℤ
  makerOrderId : String
  makerId : String
  makerRemainingQuantity : ℤ
  makerSide : OrderSide
deriving DecidableEq, Repr

/-- The trade record the route assembles for each match (step 5). -/
structure TradeRec where
  price : ℚ
  quantity : ℤ
  makerOrderId : String
  takerOrderId : String
deriving DecidableEq, Repr

/-- Step 5 of the orders route: one trade per match, with the match's price
and quantity, the match's maker order id and the taker's order id. -/
def tradesOfMatches (takerOrderId : String) (ms : List MatchEntry) : List TradeRec :=
  ms.map fun m =>
    { price := m.price, quantity := m.quantity,
      makerOrderId := m.makerOrderId, takerOrderId := takerOrderId }

/-- `totalFilledQuantity`, accumulated over the match loop of step 5. -/
def totalFilledOfMatches (ms : List MatchEntry) : ℤ :=
  (ms.map fun m => m.quantity).sum

/-- `remainingQuantity = quantity - totalFilledQuantity` (step 6). -/
def remainingOfMatches (quantity : ℤ) (ms : List MatchEntry) : ℤ :=
  quantity - totalFilledOfMatches ms

/-- Price bounds of the Fastify body schema in the orders route
(`orderSchema`): `minimum: 0, maximum: 1`, both inclusive. -/
def orderSchemaAcceptsPrice (price : ℚ) : Bool :=
  decide (0 ≤ price) && decide (price ≤ 1)

/-- Price bounds of the Fastify body schema of the POST /orders route in
the user-orders module: `exclusiveMinimum: 0, exclusiveMaximum: 1`. -/
def createOrderSchemaAcceptsPrice (price : ℚ) : Bool :=
  decide (0 < price) && decide (price < 1)

/-- Modelled from the spec: `OrderValidator.validate`
(`services/orderValidator`, not present in the sources) checks per §4.2
item 4 that `price` is a finite number strictly between 0 and 1 exclusive.
JSON numbers are always finite, so the check is the two strict bounds. -/
def orderValidatorAcceptsPrice (price : ℚ) : Bool :=
  decide (0 < price) && decide (price < 1)

/-- The price checks an order request passes on the submit path of the
orders route: the Fastify schema bounds, then `OrderValidator.validate`
inside the transaction. -/
def submitPriceValidation (price : ℚ) : Bool :=
  orderSchemaAcceptsPrice price && orderValidatorAcceptsPrice price

/-- Steps 1–2 of the orders route transaction, restricted to the price
check: validation runs first and a failure throws `ValidationError`
before the order row insert, so nothing is written on failure. -/
def submitTransactionPricePath (price : ℚ) : Except String (List String) :=
  if submitPriceValidation price then Except.ok ["order.create"]
  else Except.error "ValidationError"

/-- C1: after the submit transaction completes, the taker order's status is
`FILLED` exactly when `filled_quantity = quantity`, `PARTIALLY_FILLED`
exactly when `0 < filled_quantity < quantity`, and `OPEN` exactly when
`filled_quantity = 0` (for a validated positive quantity and a fill not
exceeding the quantity). -/
theorem takerOrderStatus_characterisation
    (quantity totalFilledQuantity : ℤ)
    (hq : 0 < quantity) (h0 : 0 ≤ totalFilledQuantity)
    (hle : totalFilledQuantity ≤ quantity) :
    (takerOrderStatus quantity totalFilledQuantity = OrderStatus.FILLED
        ↔ totalFilledQuantity = quantity) ∧
    (takerOrderStatus quantity totalFilledQuantity = OrderStatus.PARTIALLY_FILLED
        ↔ 0 < totalFilledQuantity ∧ totalFilledQuantity < quantity) ∧
    (takerOrderStatus quantity totalFilledQuantity = OrderStatus.OPEN
        ↔ totalFilledQuantity = 0) := by
  unfold takerOrderStatus
  split_ifs with h1 h2 <;> simp <;> omega

/-- Witness for C1: a taker of quantity 2 with 1 filled is `PARTIALLY_FILLED`,
and the characterisation holds there. -/
theorem takerOrderStatus_characterisation_witness :
    (takerOrderStatus 2 1 = OrderStatus.FILLED ↔ (1 : ℤ) = 2) ∧
    (takerOrderStatus 2 1 = OrderStatus.PARTIALLY_FILLED
        ↔ (0 : ℤ) < 1 ∧ (1 : ℤ) < 2) ∧
    (takerOrderStatus 2 1 = OrderStatus.OPEN ↔ (1 : ℤ) = 0) :=
  takerOrderStatus_characterisation 2 1 (by decide) (by decide) (by decide)

/-- C2: for every match result processed by one submit, the sum of the
quantities of the emitted trades plus the taker's remaining quantity equals
the taker's original quantity. -/
theorem trades_quantity_conservation
    (takerOrderId : String) (quantity : ℤ) (ms : List MatchEntry) :
    ((tradesOfMatches takerOrderId ms).map fun t => t.quantity).sum
        + remainingOfMatches quantity ms = quantity := by
  simp only [tradesOfMatches, remainingOfMatches, totalFilledOfMatches,
    List.map_map, Function.comp_def]
  ring

/-- C3: the submit-path price validation passes exactly when the price is
strictly between 0 and 1 (finiteness is inherent to JSON numbers); prices
0 and 1 are rejected with a `ValidationError` thrown before the order row
insert, and the standalone POST /orders schema likewise excludes 0 and 1. -/
theorem price_validation_characterisation (price : ℚ) :
    (submitPriceValidation price = true ↔ 0 < price ∧ price < 1) ∧
    (createOrderSchemaAcceptsPrice price = true ↔ 0 < price ∧ price < 1) ∧
    submitTransactionPricePath 0 = Except.error "ValidationError" ∧
    submitTransactionPricePath 1 = Except.error "ValidationError" := by
  refine ⟨?_, ?_, ?_, ?_⟩
  · simp only [submitPriceValidation, orderSchemaAcceptsPrice,
      orderValidatorAcceptsPrice, Bool.and_eq_true, decide_eq_true_eq]
    constructor
    · intro h
      exact h.2
    · intro h
      exact ⟨⟨le_of_lt h.1, le_of_lt h.2⟩, h⟩
  · simp only [createOrderSchemaAcceptsPrice, Bool.and_eq_true, decide_eq_true_eq]
  · rfl
  · rfl

/-- A stored user position row, the `Position` model mutated by the orders
route: signed share `quantity` and `averagePrice`. -/
structure PositionRow where
  quantity : ℚ
  averagePrice : ℚ
deriving DecidableEq, Repr

/-- Key of the unique index `userId_marketId_outcome` used by
`tx.position.findUnique`. -/
abbrev PositionKey := String × String × String

/-- `tx.position.findUnique` over the positions table, modelled as an
association list on the unique key. -/
def findPosition : List (PositionKey × PositionRow) → PositionKey → Option PositionRow
  | [], _ => none
  | e :: rest, k => if e.1 = k then some e.2 else findPosition rest k

/-- `tx.position.update`: replaces the row at the unique key. -/
def updateRow :
    List (PositionKey × PositionRow) → PositionKey → PositionRow →
      List (PositionKey × PositionRow)
  | [], _, _ => []
  | e :: rest, k, row =>
      if e.1 = k then (k, row) :: rest else e :: updateRow rest k row

/-- `tx.position.create`: inserts a fresh row. -/
def createRow (table : List (PositionKey × PositionRow)) (k : PositionKey)
    (row : PositionRow) : List (PositionKey × PositionRow) :=
  (k, row) :: table

/-- The `updatePosition` helper of the orders route.  With an existing
position it recomputes quantity, value and average price from the trade
(`newAveragePrice = newValue / newQuantity` unless `newQuantity = 0`, in
which case 0); with no existing row it creates one whose quantity is the
trade quantity for a BUY and its negation for a SELL, with the trade price
as the average. -/
def updatePosition (table : List (PositionKey × PositionRow))
    (userId marketId outcome : String) (quantity price : ℚ) (isBuy : Bool) :
    List (PositionKey × PositionRow) :=
  let k : PositionKey := (userId, marketId, outcome)
  match findPosition table k with
  | some existingPosition =>
      let currentQuantity := existingPosition.quantity
      let currentValue := currentQuantity * existingPosition.averagePrice
      let newQuantity :=
        if isBuy then currentQuantity + quantity else currentQuantity - quantity
      let newValue :=
        if isBuy then currentValue + quantity * price else currentValue - quantity * price
      let newAveragePrice := if newQuantity ≠ 0 then newValue / newQuantity else 0
      updateRow table k { quantity := newQuantity, averagePrice := newAveragePrice }
  | none =>
      createRow table k
        { quantity := if isBuy then quantity else -quantity, averagePrice := price }

/-- After `updateRow` at a key that is present, looking the key up yields
the new row. -/
theorem findPosition_updateRow (table : List (PositionKey × PositionRow))
    (k : PositionKey) (row : PositionRow) (pos : PositionRow)
    (h : findPosition table k = some pos) :
    findPosition (updateRow table k row) k = some row := by
  induction table with
  | nil => simp [findPosition] at h
  | cons e rest ih =>
      by_cases hk : e.1 = k
      · simp [findPosition, updateRow, hk]
      · simp only [findPosition, updateRow, if_neg hk] at h ⊢
        exact ih h

/-- C4 counterexample: a seller holding 10 shares at average price 1/2 who
sells 5 at trade price 7/10 is left with 5 shares (nonzero), yet the stored
average price changes from 1/2 to 3/10. -/
theorem updatePosition_sell_average_not_preserved :
    findPosition
        (updatePosition
          [((("u", "m", "YES") : PositionKey),
            ({ quantity := 10, averagePrice := 1/2 } : PositionRow))]
          "u" "m" "YES" 5 (7/10) false)
        ("u", "m", "YES")
      = some { quantity := 5, averagePrice := 3/10 } ∧
    ((3 : ℚ)/10 ≠ 1/2 ∧ (5 : ℚ) ≠ 0) := by
  constructor
  · norm_num [updatePosition, findPosition, updateRow, createRow]
  · norm_num

/-- C4 amended: on the SELL side against an existing position the stored
average price is recomputed as `(old_qty·old_avg − q·p) / (old_qty − q)`
when the post-trade share quantity is nonzero (so it is preserved only
when the trade price equals the old average), and it resets to 0 when the
post-trade quantity is 0. -/
theorem updatePosition_sell_average_formula
    (table : List (PositionKey × PositionRow))
    (userId marketId outcome : String) (pos : PositionRow) (q p : ℚ)
    (hfind : findPosition table (userId, marketId, outcome) = some pos) :
    findPosition
        (updatePosition table userId marketId outcome q p false)
        (userId, marketId, outcome)
      = some { quantity := pos.quantity - q,
               averagePrice :=
                 if pos.quantity - q ≠ 0
                 then (pos.quantity * pos.averagePrice - q * p) / (pos.quantity - q)
                 else 0 } := by
  unfold updatePosition
  simp only [hfind]
  exact findPosition_updateRow table _ _ pos hfind

/-- Witness for C4 amended: the formula evaluated on a concrete position of
10 shares at average 1/2, selling 5 at price 7/10. -/
theorem updatePosition_sell_average_formula_witness :
    findPosition
        (updatePosition
          [((("u", "m", "YES") : PositionKey),
            ({ quantity := 10, averagePrice := 1/2 } : PositionRow))]
          "u" "m" "YES" 5 (7/10) false)
        ("u", "m", "YES")
      = some { quantity := (10 : ℚ) - 5,
               averagePrice :=
                 if (10 : ℚ) - 5 ≠ 0
                 then ((10 : ℚ) * (1/2) - 5 * (7/10)) / ((10 : ℚ) - 5)
                 else 0 } :=
  updatePosition_sell_average_formula
    [((("u", "m", "YES") : PositionKey),
      ({ quantity := 10, averagePrice := 1/2 } : PositionRow))]
    "u" "m" "YES" { quantity := 10, averagePrice := 1/2 } 5 (7/10) (by rfl)

/-- C10: when the SELL side of a trade has no position row for
(user, market, outcome), `updatePosition` creates one whose share quantity
is the negation of the trade quantity — negative for every positive trade
quantity, with no branch preventing it. -/
theorem updatePosition_sell_no_row_creates_negative
    (table : List (PositionKey × PositionRow))
    (userId marketId outcome : String) (q p : ℚ)
    (hnone : findPosition table (userId, marketId, outcome) = none)
    (hq : 0 < q) :
    findPosition
        (updatePosition table userId marketId outcome q p false)
        (userId, marketId, outcome)
      = some { quantity := -q, averagePrice := p } ∧
    (-q : ℚ) < 0 := by
  constructor
  · unfold updatePosition
    simp only [hnone]
    simp [createRow, findPosition]
  · linarith

/-- Witness for C10: a first-ever SELL of 3 shares at price 1/2 creates a
position row with quantity −3. -/
theorem updatePosition_sell_no_row_creates_negative_witness :
    findPosition
        (updatePosition [] "u" "m" "YES" 3 (1/2) false)
        ("u", "m", "YES")
      = some { quantity := -3, averagePrice := 1/2 } ∧
    (-3 : ℚ) < 0 :=
  updatePosition_sell_no_row_creates_negative [] "u" "m" "YES" 3 (1/2)
    (by rfl) (by norm_num)

/-- A Redis string entry as written by `SET key value PX ttl NX`: the
stored value and the TTL in milliseconds. -/
structure RedisEntry where
  value : String
  ttlMs : ℕ
deriving DecidableEq, Repr

/-- `GET key` over the modelled Redis key space. -/
def redisGet : List (String × RedisEntry) → String → Option RedisEntry
  | [], _ => none
  | e :: rest, k => if e.1 = k then some e.2 else redisGet rest k

/-- `DEL key`. -/
def redisDel : List (String × RedisEntry) → String → List (String × RedisEntry)
  | [], _ => []
  | e :: rest, k => if e.1 = k then redisDel rest k else e :: redisDel rest k

/-- `SET key value PX ttl NX`: writes only when the key is absent and
reports whether the write happened (the route's `lockAcquired`). -/
def redisSetPxNx (st : List (String × RedisEntry)) (k v : String) (ttl : ℕ) :
    Bool × List (String × RedisEntry) :=
  match redisGet st k with
  | some _ => (false, st)
  | none => (true, (k, ⟨v, ttl⟩) :: st)

/-- The release script in the `finally` block of the orders route: delete
the key only when its stored value still equals the caller's lock value. -/
def redisReleaseIfValue (st : List (String × RedisEntry)) (k v : String) :
    List (String × RedisEntry) :=
  match redisGet st k with
  | some e => if e.value = v then redisDel st k else st
  | none => st

/-- The admission lock key of the orders route:
`order:lock:<userAddress>:<marketId>`. -/
def lockKey (userAddress marketId : String) : String :=
  "order:lock:" ++ userAddress ++ ":" ++ marketId

/-- The orders route's reply, as far as the admission lock path goes. -/
inductive SubmitResponse
  | rateLimited
  | created (receiptBody : String)
  | serverError
deriving DecidableEq, Repr

/-- The admission-lock discipline of the orders route: a single
non-blocking `SET <lockKey> <lockValue> PX 5000 NX`; on failure reply 429
(`TooManyRequests`) at once; otherwise run the transaction and execute the
release script in the `finally` block, whether the transaction returned or
threw. -/
def submitWithLock (st : List (String × RedisEntry))
    (userAddress marketId lockValue : String) (txn : Except String String) :
    SubmitResponse × List (String × RedisEntry) :=
  let k := lockKey userAddress marketId
  let acq := redisSetPxNx st k lockValue 5000
  if acq.1 = false then (SubmitResponse.rateLimited, acq.2)
  else
    let released := redisReleaseIfValue acq.2 k lockValue
    match txn with
    | Except.ok body => (SubmitResponse.created body, released)
    | Except.error _ => (SubmitResponse.serverError, released)

/-- Deleting an absent key leaves the state unchanged. -/
theorem redisDel_of_get_none (st : List (String × RedisEntry)) (k : String)
    (h : redisGet st k = none) : redisDel st k = st := by
  induction st with
  | nil => rfl
  | cons e rest ih =>
      by_cases hk : e.1 = k
      · simp [redisGet, hk] at h
      · simp only [redisGet, if_neg hk] at h
        simp [redisDel, hk, ih h]

/-- C5: each submit makes exactly one non-blocking acquisition of the lock
keyed `order:lock:<user>:<marketId>`: when the lock is already held the
reply is 429 with the state untouched; when it is free, the lock is held
with TTL 5000 ms while the transaction runs, the reply follows the
transaction's outcome, and the lock is released afterwards whether the
transaction succeeded or threw. -/
theorem submitWithLock_admission (st : List (String × RedisEntry))
    (userAddress marketId lockValue : String) (txn : Except String String) :
    (redisGet st (lockKey userAddress marketId) ≠ none →
      submitWithLock st userAddress marketId lockValue txn
        = (SubmitResponse.rateLimited, st)) ∧
    (redisGet st (lockKey userAddress marketId) = none →
      redisGet (redisSetPxNx st (lockKey userAddress marketId) lockValue 5000).2
          (lockKey userAddress marketId)
        = some ⟨lockValue, 5000⟩ ∧
      redisGet (submitWithLock st userAddress marketId lockValue txn).2
          (lockKey userAddress marketId) = none ∧
      (∀ body, txn = Except.ok body →
        (submitWithLock st userAddress marketId lockValue txn).1
          = SubmitResponse.created body) ∧
      (∀ msg, txn = Except.error msg →
        (submitWithLock st userAddress marketId lockValue txn).1
          = SubmitResponse.serverError)) := by
  constructor
  · intro hheld
    rcases hget : redisGet st (lockKey userAddress marketId) with _ | e
    · exact absurd hget hheld
    · simp [submitWithLock, redisSetPxNx, hget]
  · intro hfree
    have hacq : redisSetPxNx st (lockKey userAddress marketId) lockValue 5000
        = (true, (lockKey userAddress marketId, ⟨lockValue, 5000⟩) :: st) := by
      unfold redisSetPxNx
      rw [hfree]
    have hgot : redisGet
        ((lockKey userAddress marketId, (⟨lockValue, 5000⟩ : RedisEntry)) :: st)
        (lockKey userAddress marketId) = some ⟨lockValue, 5000⟩ := by
      simp [redisGet]
    have hrel : redisReleaseIfValue
        ((lockKey userAddress marketId, (⟨lockValue, 5000⟩ : RedisEntry)) :: st)
        (lockKey userAddress marketId) lockValue = st := by
      unfold redisReleaseIfValue
      rw [hgot]
      simp [redisDel, redisDel_of_get_none st _ hfree]
    refine ⟨by rw [hacq]; exact hgot, ?_, ?_, ?_⟩
    · unfold submitWithLock
      simp only [hacq, hrel]
      cases txn <;> simpa using hfree
    · intro body hbody
      unfold submitWithLock
      simp [hacq, hrel, hbody]
    · intro msg hmsg
      unfold submitWithLock
      simp [hacq, hrel, hmsg]

/-- Witness for C5: with the lock held by another submission the reply is
429; starting from an empty key space, a throwing transaction still leaves
the lock released. -/
theorem submitWithLock_admission_witness :
    submitWithLock [(lockKey "u" "m", ⟨"w", 5000⟩)] "u" "m" "v"
        (Except.ok "receipt")
      = (SubmitResponse.rateLimited, [(lockKey "u" "m", ⟨"w", 5000⟩)]) ∧
    redisGet (submitWithLock [] "u" "m" "v" (Except.error "boom")).2
        (lockKey "u" "m") = none :=
  ⟨(submitWithLock_admission [(lockKey "u" "m", ⟨"w", 5000⟩)] "u" "m" "v"
      (Except.ok "receipt")).1 (by decide),
   ((submitWithLock_admission [] "u" "m" "v" (Except.error "boom")).2
      (by rfl)).2.1⟩

/-- The matching engine's `Trade` shape, the payload `logOrderMatch`
flattens into a stream entry. -/
structure AuditTrade where
  id : String
  marketId : String
  outcome : String
  buyerAddress : String
  sellerAddress : String
  buyOrderId : String
  sellOrderId : String
  price : ℚ
  quantity : ℤ
  timestamp : ℕ
deriving DecidableEq, Repr

/-- The entries of one stream, oldest first. -/
def streamEntries : List (String × List AuditTrade) → String → List AuditTrade
  | [], _ => []
  | s :: rest, k => if s.1 = k then s.2 else streamEntries rest k

/-- `AuditService.streamPrefix = "audit:market:"` applied to a market id. -/
def marketStreamKey (marketId : String) : String :=
  "audit:market:" ++ marketId

/-- `AuditService.globalStream`. -/
def globalStreamKey : String := "audit:trades:global"

/-- A concrete trade used by closed evaluations. -/
def sampleTrade : AuditTrade :=
  { id := "trade-1", marketId := "m1", outcome := "YES",
    buyerAddress := "GBUYER", sellerAddress := "GSELLER",
    buyOrderId := "buy-1", sellOrderId := "sell-1",
    price := 11/20, quantity := 100, timestamp := 1700000000000 }

/-- `AuditService.getAuditLog`: `XRANGE stream - + COUNT limit` over the
market stream — the first `limit` entries, oldest first.  The `limit`
parameter defaults to 100 and is used as given, with no cap. -/
def auditServiceGetAuditLog (st : List (String × List AuditTrade))
    (marketId : String) (limit : ℕ) : List AuditTrade :=
  (streamEntries st (marketStreamKey marketId)).take limit

/-- `AuditService.getAuditLog` called without a `limit` argument uses the
default value 100. -/
def auditServiceGetAuditLogDefault (st : List (String × List AuditTrade))
    (marketId : String) : List AuditTrade :=
  auditServiceGetAuditLog st marketId 100

/-- `AuditLogService.getAuditLog` (the matching-side audit module): clamps
the limit to `min (max 1 limit) 1000` and reads with `XREVRANGE + -`, i.e.
newest first. -/
def auditLogServiceGetAuditLog (st : List (String × List AuditTrade))
    (marketId : String) (limit : ℕ) : List AuditTrade :=
  (streamEntries st (marketStreamKey marketId)).reverse.take (min (max 1 limit) 1000)

/-- C7 counterexample: on a market stream holding 1001 entries,
`AuditService.getAuditLog` with `limit = 1001` returns 1001 entries,
exceeding min(limit, 1000) = 1000 — the 1000 cap does not exist there. -/
theorem auditServiceGetAuditLog_no_cap :
    (auditServiceGetAuditLog
        [(marketStreamKey "m1", List.replicate 1001 sampleTrade)] "m1" 1001).length
      = 1001 ∧
    min 1001 1000 = 1000 ∧ (1000 : ℕ) < 1001 := by
  refine ⟨?_, by norm_num, by norm_num⟩
  have hse : streamEntries
      [(marketStreamKey "m1", List.replicate 1001 sampleTrade)]
      (marketStreamKey "m1") = List.replicate 1001 sampleTrade := by
    unfold streamEntries
    rw [if_pos rfl]
  unfold auditServiceGetAuditLog
  rw [hse, List.take_replicate, List.length_replicate, min_self]

/-- C7 amended: `AuditService.getAuditLog` returns the oldest entries of
the market stream, at most `limit` of them with no 1000 cap, 100 when no
limit is given; the 1000 cap exists only in the separate
`AuditLogService.getAuditLog`, which reads newest-first. -/
theorem auditServiceGetAuditLog_spec (st : List (String × List AuditTrade))
    (marketId : String) (limit : ℕ) :
    (auditServiceGetAuditLog st marketId limit).length
      = min limit (streamEntries st (marketStreamKey marketId)).length ∧
    (∀ i : ℕ, ∀ hi : i < (auditServiceGetAuditLog st marketId limit).length,
      ∀ hj : i < (streamEntries st (marketStreamKey marketId)).length,
      (auditServiceGetAuditLog st marketId limit).get ⟨i, hi⟩
        = (streamEntries st (marketStreamKey marketId)).get ⟨i, hj⟩) ∧
    auditServiceGetAuditLogDefault st marketId
      = (streamEntries st (marketStreamKey marketId)).take 100 ∧
    (auditLogServiceGetAuditLog st marketId limit).length ≤ 1000 := by
  refine ⟨?_, ?_, rfl, ?_⟩
  · simp [auditServiceGetAuditLog]
  · intro i hi hj
    simp [auditServiceGetAuditLog]
  · simp only [auditLogServiceGetAuditLog]
    calc ((streamEntries st (marketStreamKey marketId)).reverse.take
            (min (max 1 limit) 1000)).length
        ≤ min (max 1 limit) 1000 := List.length_take_le _ _
      _ ≤ 1000 := min_le_right _ _

/-- Witness for C7 amended: evaluated on a two-entry stream with limit 1. -/
theorem auditServiceGetAuditLog_spec_witness :
    (auditServiceGetAuditLog
        [(marketStreamKey "m1", [sampleTrade, sampleTrade])] "m1" 1).length
      = min 1 (streamEntries
          [(marketStreamKey "m1", [sampleTrade, sampleTrade])]
          (marketStreamKey "m1")).length ∧
    auditServiceGetAuditLogDefault
        [(marketStreamKey "m1", [sampleTrade, sampleTrade])] "m1"
      = (streamEntries [(marketStreamKey "m1", [sampleTrade, sampleTrade])]
          (marketStreamKey "m1")).take 100 :=
  ⟨(auditServiceGetAuditLog_spec
      [(marketStreamKey "m1", [sampleTrade, sampleTrade])] "m1" 1).1,
   (auditServiceGetAuditLog_spec
      [(marketStreamKey "m1", [sampleTrade, sampleTrade])] "m1" 1).2.2.1⟩

/-- The table names created by the `CREATE TABLE` statements of migration
`20260122080015_init/migration.sql`, in order of appearance. -/
def migrationTableNames : List String := ["markets", "orders", "user_positions"]

/-- The tables the orders route transaction writes through Prisma
(`tx.order.create/update`, `tx.trade.create`, `tx.position.*`), under the
table names the spec assigns those models. -/
def submitPathTableNames : List String := ["orders", "trades", "user_positions"]

/-- C9: the init migration creates only `markets`, `orders` and
`user_positions`; there is no `trades` table, although the submit path
inserts trade rows — evaluating the schema at the four claimed names shows
`trades` missing. -/
theorem migration_has_no_trades_table :
    migrationTableNames = ["markets", "orders", "user_positions"] ∧
    "trades" ∉ migrationTableNames ∧
    "trades" ∈ submitPathTableNames := by
  refine ⟨rfl, by decide, by decide⟩

/-- A Redis stream entry id `<unix_millis>-<sequence>`. -/
structure StreamId where
  ms : ℕ
  seq : ℕ
deriving DecidableEq, Repr

/-- Redis's id order: `a` is equal to or smaller than `b` when the
millisecond parts compare so, ties broken by the sequence part. -/
def StreamId.isLe (a b : StreamId) : Bool :=
  decide (a.ms < b.ms) || (decide (a.ms = b.ms) && decide (a.seq ≤ b.seq))

/-- Streams whose entries carry their ids: key → (id, payload) pairs,
oldest first. -/
abbrev IdStreams := List (String × List (StreamId × AuditTrade))

/-- The entries of one id-carrying stream, oldest first. -/
def idStreamEntries : IdStreams → String → List (StreamId × AuditTrade)
  | [], _ => []
  | s :: rest, k => if s.1 = k then s.2 else idStreamEntries rest k

/-- The id of a stream's newest entry, against which Redis validates an
explicit id. -/
def lastStreamId (es : List (StreamId × AuditTrade)) : Option StreamId :=
  (es.map fun e => e.1).getLast?

/-- Append one (id, payload) entry at a stream's tail, creating the stream
when absent.  (`MAXLEN ~` trimming is approximate and does not change how
many entries an append writes, so it is left out of the state.) -/
def idStreamAppend : IdStreams → String → StreamId → AuditTrade → IdStreams
  | [], k, i, e => [(k, [(i, e)])]
  | s :: rest, k, i, e =>
      if s.1 = k then (k, s.2 ++ [(i, e)]) :: rest
      else s :: idStreamAppend rest k i e

/-- `XADD key MAXLEN ~ n <ms>-<seq> payload`: Redis rejects an explicit id
equal to or smaller than the stream's last id and appends otherwise. -/
def xaddExplicit (st : IdStreams) (k : String) (i : StreamId) (e : AuditTrade) :
    Except String IdStreams :=
  match lastStreamId (idStreamEntries st k) with
  | some l =>
      if i.isLe l then
        Except.error "The ID specified in XADD is equal or smaller than the target stream top item"
      else Except.ok (idStreamAppend st k i e)
  | none => Except.ok (idStreamAppend st k i e)

/-- `XADD key MAXLEN ~ n * payload`: Redis auto-generates an id strictly
above the stream's last id (the current milliseconds, or the last id's
sequence plus one on clock ties) and appends; it cannot fail on id order.
The generated id's exact value never affects how many entries are written,
so the guaranteed minimum choice is used. -/
def xaddAuto (st : IdStreams) (k : String) (e : AuditTrade) : IdStreams :=
  match lastStreamId (idStreamEntries st k) with
  | some l => idStreamAppend st k ⟨l.ms, l.seq + 1⟩ e
  | none => idStreamAppend st k ⟨0, 0⟩ e

/-- `AuditService.logOrderMatch` with its id handling: both explicit-id
`XADD`s — market stream first, then global, both at `<timestamp>-0` — run
inside one try block.  On an id error the catch re-runs **both** `XADD`s
with auto-generated ids, so a market append that already succeeded is
followed by a second market append when the global `XADD` rejects the
explicit id.  (Storage/connection failures, which the method rethrows, are
outside the modelled state.) -/
def logOrderMatch (st : IdStreams) (trade : AuditTrade) : IdStreams :=
  let streamId : StreamId := ⟨trade.timestamp, 0⟩
  match xaddExplicit st (marketStreamKey trade.marketId) streamId trade with
  | Except.ok st1 =>
      match xaddExplicit st1 globalStreamKey streamId trade with
      | Except.ok st2 => st2
      | Except.error _ =>
          xaddAuto (xaddAuto st1 (marketStreamKey trade.marketId) trade)
            globalStreamKey trade
  | Except.error _ =>
      xaddAuto (xaddAuto st (marketStreamKey trade.marketId) trade)
        globalStreamKey trade

/-- An append adds exactly one entry to its target stream. -/
theorem idStreamEntries_append_same (st : IdStreams) (k : String)
    (i : StreamId) (e : AuditTrade) :
    idStreamEntries (idStreamAppend st k i e) k
      = idStreamEntries st k ++ [(i, e)] := by
  induction st with
  | nil => simp [idStreamAppend, idStreamEntries]
  | cons s rest ih =>
      by_cases hk : s.1 = k
      · simp [idStreamAppend, idStreamEntries, hk]
      · simp [idStreamAppend, idStreamEntries, hk, ih]

/-- An append leaves every other stream unchanged. -/
theorem idStreamEntries_append_other (st : IdStreams) (k k' : String)
    (i : StreamId) (e : AuditTrade) (hne : k' ≠ k) :
    idStreamEntries (idStreamAppend st k i e) k' = idStreamEntries st k' := by
  induction st with
  | nil => simp [idStreamAppend, idStreamEntries, hne.symm]
  | cons s rest ih =>
      by_cases hk : s.1 = k
      · simp [idStreamAppend, idStreamEntries, hk, hne.symm]
      · by_cases hk' : s.1 = k'
        · simp [idStreamAppend, idStreamEntries, hk, hk', hne]
        · simp [idStreamAppend, idStreamEntries, hk, hk', ih]

/-- `xaddAuto` adds exactly one entry to its target stream. -/
theorem idStreamEntries_auto_same (st : IdStreams) (k : String) (e : AuditTrade) :
    ∃ i, idStreamEntries (xaddAuto st k e) k = idStreamEntries st k ++ [(i, e)] := by
  unfold xaddAuto
  cases lastStreamId (idStreamEntries st k) with
  | none => exact ⟨⟨0, 0⟩, idStreamEntries_append_same st k ⟨0, 0⟩ e⟩
  | some l => exact ⟨⟨l.ms, l.seq + 1⟩, idStreamEntries_append_same st k _ e⟩

/-- `xaddAuto` leaves every other stream unchanged. -/
theorem idStreamEntries_auto_other (st : IdStreams) (k k' : String)
    (e : AuditTrade) (hne : k' ≠ k) :
    idStreamEntries (xaddAuto st k e) k' = idStreamEntries st k' := by
  unfold xaddAuto
  cases lastStreamId (idStreamEntries st k) with
  | none => exact idStreamEntries_append_other st k k' _ e hne
  | some l => exact idStreamEntries_append_other st k k' _ e hne

/-- A successful explicit `XADD` is exactly one append. -/
theorem xaddExplicit_ok (st : IdStreams) (k : String) (i : StreamId)
    (e : AuditTrade) (st' : IdStreams)
    (h : xaddExplicit st k i e = Except.ok st') :
    st' = idStreamAppend st k i e := by
  unfold xaddExplicit at h
  cases hl : lastStreamId (idStreamEntries st k) with
  | none =>
      rw [hl] at h
      cases h
      rfl
  | some l =>
      rw [hl] at h
      by_cases hle : i.isLe l = true
      · simp [hle] at h
      · simp [hle] at h
        exact h.symm

/-- A trade of a different market at the same millisecond, used to pre-load
the global stream. -/
def sampleTradeOther : AuditTrade :=
  { sampleTrade with id := "trade-0", marketId := "m2" }

/-- C6 counterexample: the global stream `AuditService` writes to is keyed
`audit:trades:global`, not `audit:global` (appending to an empty store
leaves `audit:global` empty); moreover, when the global stream already
holds an entry at the trade's timestamp — another market traded in the
same millisecond — the market `XADD` at `<ts>-0` succeeds, the global one
is rejected, and the catch re-appends, leaving two market-stream entries
for one successful append. -/
theorem logOrderMatch_not_one_market_entry :
    globalStreamKey ≠ "audit:global" ∧
    idStreamEntries (logOrderMatch [] sampleTrade) "audit:global" = [] ∧
    (idStreamEntries
        (logOrderMatch
          [(globalStreamKey, [(⟨sampleTrade.timestamp, 0⟩, sampleTradeOther)])]
          sampleTrade)
        (marketStreamKey sampleTrade.marketId)).length = 2 := by
  refine ⟨by decide, by decide, by decide⟩

/-- C6 amended: every successful audit append writes exactly one entry to
the global stream keyed `audit:trades:global`.  It writes exactly one
entry to the per-market stream `audit:market:<market_id>` when both
explicit-id `XADD`s succeed and when the market `XADD` itself rejects the
explicit id; but when the market `XADD` accepts the explicit id and the
global `XADD` rejects it, the fallback re-appends and the market stream
receives two entries. -/
theorem logOrderMatch_append_counts (st : IdStreams) (trade : AuditTrade)
    (hk : marketStreamKey trade.marketId ≠ globalStreamKey) :
    (idStreamEntries (logOrderMatch st trade) globalStreamKey).length
      = (idStreamEntries st globalStreamKey).length + 1 ∧
    (∀ st1, xaddExplicit st (marketStreamKey trade.marketId)
        ⟨trade.timestamp, 0⟩ trade = Except.ok st1 →
      ∀ st2, xaddExplicit st1 globalStreamKey ⟨trade.timestamp, 0⟩ trade
        = Except.ok st2 →
      (idStreamEntries (logOrderMatch st trade)
          (marketStreamKey trade.marketId)).length
        = (idStreamEntries st (marketStreamKey trade.marketId)).length + 1) ∧
    (∀ msg, xaddExplicit st (marketStreamKey trade.marketId)
        ⟨trade.timestamp, 0⟩ trade = Except.error msg →
      (idStreamEntries (logOrderMatch st trade)
          (marketStreamKey trade.marketId)).length
        = (idStreamEntries st (marketStreamKey trade.marketId)).length + 1) ∧
    (∀ st1 msg, xaddExplicit st (marketStreamKey trade.marketId)
        ⟨trade.timestamp, 0⟩ trade = Except.ok st1 →
      xaddExplicit st1 globalStreamKey ⟨trade.timestamp, 0⟩ trade
        = Except.error msg →
      (idStreamEntries (logOrderMatch st trade)
          (marketStreamKey trade.marketId)).length
        = (idStreamEntries st (marketStreamKey trade.marketId)).length + 2) := by
  refine ⟨?_, ?_, ?_, ?_⟩
  · rcases h1 : xaddExplicit st (marketStreamKey trade.marketId)
        ⟨trade.timestamp, 0⟩ trade with msg | st1
    · simp only [logOrderMatch, h1]
      obtain ⟨j, hj⟩ := idStreamEntries_auto_same
        (xaddAuto st (marketStreamKey trade.marketId) trade) globalStreamKey trade
      rw [hj, idStreamEntries_auto_other _ _ _ _ hk.symm]
      simp
    · rcases h2 : xaddExplicit st1 globalStreamKey
          ⟨trade.timestamp, 0⟩ trade with msg | st2
      · simp only [logOrderMatch, h1, h2]
        obtain ⟨j, hj⟩ := idStreamEntries_auto_same
          (xaddAuto st1 (marketStreamKey trade.marketId) trade) globalStreamKey trade
        rw [hj, idStreamEntries_auto_other _ _ _ _ hk.symm]
        have e1 := xaddExplicit_ok _ _ _ _ _ h1
        subst e1
        rw [idStreamEntries_append_other _ _ _ _ _ hk.symm]
        simp
      · simp only [logOrderMatch, h1, h2]
        have e1 := xaddExplicit_ok _ _ _ _ _ h1
        have e2 := xaddExplicit_ok _ _ _ _ _ h2
        subst e1
        subst e2
        rw [idStreamEntries_append_same,
          idStreamEntries_append_other _ _ _ _ _ hk.symm]
        simp
  · intro st1 h1 st2 h2
    simp only [logOrderMatch, h1, h2]
    have e1 := xaddExplicit_ok _ _ _ _ _ h1
    have e2 := xaddExplicit_ok _ _ _ _ _ h2
    subst e1
    subst e2
    rw [idStreamEntries_append_other _ _ _ _ _ hk,
      idStreamEntries_append_same]
    simp
  · intro msg h1
    simp only [logOrderMatch, h1]
    rw [idStreamEntries_auto_other _ _ _ _ hk]
    obtain ⟨j, hj⟩ := idStreamEntries_auto_same st
      (marketStreamKey trade.marketId) trade
    rw [hj]
    simp
  · intro st1 msg h1 h2
    simp only [logOrderMatch, h1, h2]
    have e1 := xaddExplicit_ok _ _ _ _ _ h1
    subst e1
    rw [idStreamEntries_auto_other _ _ _ _ hk]
    obtain ⟨j, hj⟩ := idStreamEntries_auto_same
      (idStreamAppend st (marketStreamKey trade.marketId)
        ⟨trade.timestamp, 0⟩ trade)
      (marketStreamKey trade.marketId) trade
    rw [hj, idStreamEntries_append_same]
    simp

/-- Witness for C6 amended: appending the sample trade to an empty store
adds exactly one entry to the global stream. -/
theorem logOrderMatch_append_counts_witness :
    (idStreamEntries (logOrderMatch [] sampleTrade) globalStreamKey).length
      = (idStreamEntries ([] : IdStreams) globalStreamKey).length + 1 :=
  (logOrderMatch_append_counts [] sampleTrade (by decide)).1

/-- The side of a resting order, `"bid" | "ask"` in `matching/orderbook`
(the second document of the endpoint README). -/
inductive BookSide
  | bid
  | ask
deriving DecidableEq, Repr

/-- The `Order` interface of `matching/orderbook`. -/
structure BookOrder where
  id : String
  userAddress : String
  side : BookSide
  price : ℚ
  quantity : ℤ
  timestamp : ℕ
  marketId : String
  outcome : ℕ
deriving DecidableEq, Repr

/-- The `PriceLevel` interface of `matching/orderbook`: the price, the
orders at that price in arrival order, and the maintained aggregate
`totalQuantity`. -/
structure PriceLevel where
  price : ℚ
  orders : List BookOrder
  totalQuantity : ℤ
deriving DecidableEq, Repr

/-- `Map.get` over a JS `Map`, modelled as an association list in key
insertion order. -/
def assocGet {α β : Type} [DecidableEq α] : List (α × β) → α → Option β
  | [], _ => none
  | e :: rest, k => if e.1 = k then some e.2 else assocGet rest k

/-- `Map.set`: replaces the value of an existing key in place; a new key
goes to the end, as JS `Map` iteration order prescribes. -/
def assocSet {α β : Type} [DecidableEq α] : List (α × β) → α → β → List (α × β)
  | [], k, v => [(k, v)]
  | e :: rest, k, v => if e.1 = k then (k, v) :: rest else e :: assocSet rest k v

/-- `Map.delete`: removes the entry of the key (keys are unique). -/
def assocDelete {α β : Type} [DecidableEq α] : List (α × β) → α → List (α × β)
  | [], _ => []
  | e :: rest, k => if e.1 = k then rest else e :: assocDelete rest k

/-- `Set.add` on a JS `Set` of order ids, modelled as a duplicate-free list
in insertion order: an element already present keeps its position. -/
def setAdd (s : List String) (x : String) : List String :=
  if x ∈ s then s else s ++ [x]

/-- `Set.delete`. -/
def setDelete : List String → String → List String
  | [], _ => []
  | y :: rest, x => if y = x then rest else y :: setDelete rest x

/-- The `OrderBook` class state of `matching/orderbook`: level maps and
sorted price arrays per side (bids descending, asks ascending), the id →
order map, and the user → order-id-set index. -/
structure OrderBook where
  marketId : String
  outcome : ℕ
  bidLevels : List (ℚ × PriceLevel)
  askLevels : List (ℚ × PriceLevel)
  bidPrices : List ℚ
  askPrices : List ℚ
  orderMap : List (String × BookOrder)
  userOrders : List (String × List String)
deriving DecidableEq, Repr

/-- `insertPrice`: binary-search insertion into the sorted price array —
the new price lands before the first element the side's comparison
(`prices[mid] > price` for bids, `<` for asks) rejects. -/
def insertPrice (descending : Bool) (price : ℚ) : List ℚ → List ℚ
  | [] => [price]
  | q :: rest =>
      if (if descending then price < q else q < price) then
        q :: insertPrice descending price rest
      else price :: q :: rest

/-- `prices.indexOf(price)` followed by `splice(index, 1)`: drop the first
occurrence. -/
def erasePrice (price : ℚ) : List ℚ → List ℚ
  | [] => []
  | q :: rest => if q = price then rest else q :: erasePrice price rest

/-- The level-map and price-array part of `addOrder` on one side: an
existing level at the order's price gets the order pushed and its
`totalQuantity` raised; otherwise a fresh level is created and the price
inserted into the sorted array. -/
def addToSide (descending : Bool) (levels : List (ℚ × PriceLevel))
    (prices : List ℚ) (o : BookOrder) : List (ℚ × PriceLevel) × List ℚ :=
  match assocGet levels o.price with
  | some level =>
      (assocSet levels o.price
        { level with orders := level.orders ++ [o],
                     totalQuantity := level.totalQuantity + o.quantity },
       prices)
  | none =>
      (assocSet levels o.price
        { price := o.price, orders := [o], totalQuantity := o.quantity },
       insertPrice descending o.price prices)

/-- `OrderBook.addOrder`: throws `"Order does not match this order book"`
on a (market, outcome) mismatch and `` `Order ${id} already exists` `` on a
duplicate id; otherwise updates the side's level and prices, the order
map, and the user's order-id set. -/
def addOrder (b : OrderBook) (o : BookOrder) : Except String OrderBook :=
  if ¬ (o.marketId = b.marketId ∧ o.outcome = b.outcome) then
    Except.error "Order does not match this order book"
  else if (assocGet b.orderMap o.id).isSome then
    Except.error ("Order " ++ o.id ++ " already exists")
  else
    let b1 :=
      match o.side with
      | BookSide.bid =>
          let r := addToSide true b.bidLevels b.bidPrices o
          { b with bidLevels := r.1, bidPrices := r.2 }
      | BookSide.ask =>
          let r := addToSide false b.askLevels b.askPrices o
          { b with askLevels := r.1, askPrices := r.2 }
    let userSet :=
      match assocGet b1.userOrders o.userAddress with
      | some s => s
      | none => []
    Except.ok
      { b1 with
        orderMap := assocSet b1.orderMap o.id o,
        userOrders := assocSet b1.userOrders o.userAddress (setAdd userSet o.id) }

/-- `level.orders.findIndex(o => o.id === orderId)` followed by
`splice(orderIndex, 1)`: drop the first order with the id. -/
def eraseOrderById : List BookOrder → String → List BookOrder
  | [], _ => []
  | x :: rest, oid => if x.id = oid then rest else x :: eraseOrderById rest oid

/-- The level mutation of `removeOrder`: when the level holds the id, the
order is spliced out and the removed order's quantity subtracted from the
aggregate; otherwise the level is untouched (`findIndex` returned −1). -/
def removeFromLevel (level : PriceLevel) (order : BookOrder) : PriceLevel :=
  if level.orders.any fun x => decide (x.id = order.id) then
    { level with orders := eraseOrderById level.orders order.id,
                 totalQuantity := level.totalQuantity - order.quantity }
  else level

/-- The level-map and price-array part of `removeOrder` on one side: `none`
when no level exists at the order's price (the method then returns null);
a level left empty is deleted from the map and its price spliced from the
sorted array. -/
def removeFromSide (levels : List (ℚ × PriceLevel)) (prices : List ℚ)
    (order : BookOrder) : Option (List (ℚ × PriceLevel) × List ℚ) :=
  match assocGet levels order.price with
  | none => none
  | some level =>
      let level' := removeFromLevel level order
      if level'.orders.isEmpty then
        some (assocDelete levels order.price, erasePrice order.price prices)
      else
        some (assocSet levels order.price level', prices)

/-- `OrderBook.removeOrder`: null when the id is not in the order map or no
level exists at the stored order's price; otherwise updates the side,
deletes the id from the order map and from the owner's order-id set
(dropping the set when it empties), and returns the removed order. -/
def removeOrder (b : OrderBook) (orderId : String) : Option BookOrder × OrderBook :=
  match assocGet b.orderMap orderId with
  | none => (none, b)
  | some order =>
      let sideResult :=
        match order.side with
        | BookSide.bid =>
            (removeFromSide b.bidLevels b.bidPrices order).map
              fun (r : List (ℚ × PriceLevel) × List ℚ) =>
                { b with bidLevels := r.1, bidPrices := r.2 }
        | BookSide.ask =>
            (removeFromSide b.askLevels b.askPrices order).map
              fun (r : List (ℚ × PriceLevel) × List ℚ) =>
                { b with askLevels := r.1, askPrices := r.2 }
      match sideResult with
      | none => (none, b)
      | some b1 =>
          let b2 := { b1 with orderMap := assocDelete b1.orderMap orderId }
          let b3 :=
            match assocGet b2.userOrders order.userAddress with
            | some s =>
                let s' := setDelete s orderId
                if s'.isEmpty then
                  { b2 with userOrders := assocDelete b2.userOrders order.userAddress }
                else
                  { b2 with userOrders := assocSet b2.userOrders order.userAddress s' }
            | none => b2
          (some order, b3)

/-- `DepthLevel` of `matching/orderbook`. -/
structure DepthLevel where
  price : ℚ
  quantity : ℤ
  orderCount : ℕ
deriving DecidableEq, Repr

/-- One side of `getDepth`: walk the first `n` sorted prices and report
each present level's price, aggregate quantity and order count. -/
def depthOfSide (prices : List ℚ) (levels : List (ℚ × PriceLevel)) (n : ℕ) :
    List DepthLevel :=
  (prices.take n).filterMap fun p =>
    (assocGet levels p).map fun level =>
      { price := level.price, quantity := level.totalQuantity,
        orderCount := level.orders.length }

/-- `OrderBook.getDepth`. -/
def getDepth (b : OrderBook) (n : ℕ) : List DepthLevel × List DepthLevel :=
  (depthOfSide b.bidPrices b.bidLevels n, depthOfSide b.askPrices b.askLevels n)

/-- `OrderBook.getBestBid`: the first order of the level at the top bid
price, or null. -/
def getBestBid (b : OrderBook) : Option BookOrder :=
  match b.bidPrices with
  | [] => none
  | bestPrice :: _ =>
      match assocGet b.bidLevels bestPrice with
      | some level => if level.orders.isEmpty then none else level.orders.head?
      | none => none

/-- `OrderBook.getBestAsk`: the first order of the level at the lowest ask
price, or null. -/
def getBestAsk (b : OrderBook) : Option BookOrder :=
  match b.askPrices with
  | [] => none
  | bestPrice :: _ =>
      match assocGet b.askLevels bestPrice with
      | some level => if level.orders.isEmpty then none else level.orders.head?
      | none => none

/-- `OrderBook.getOrdersByUser`: the user's order-id set in insertion
order, resolved through the order map, skipping unresolved ids. -/
def getOrdersByUser (b : OrderBook) (userAddress : String) : List BookOrder :=
  match assocGet b.userOrders userAddress with
  | none => []
  | some orderIds => orderIds.filterMap fun oid => assocGet b.orderMap oid

/-- The level map of one side. -/
def sideLevels (b : OrderBook) : BookSide → List (ℚ × PriceLevel)
  | BookSide.bid => b.bidLevels
  | BookSide.ask => b.askLevels

/-- The sorted price array of one side. -/
def sidePrices (b : OrderBook) : BookSide → List ℚ
  | BookSide.bid => b.bidPrices
  | BookSide.ask => b.askPrices

/-- The order id appears nowhere in the book: not in the order map, in no
level of either side, and in no user's order-id set. -/
def idFreeOfBook (b : OrderBook) (oid : String) : Prop :=
  assocGet b.orderMap oid = none ∧
  (∀ l ∈ b.bidLevels, ∀ x ∈ l.2.orders, x.id ≠ oid) ∧
  (∀ l ∈ b.askLevels, ∀ x ∈ l.2.orders, x.id ≠ oid) ∧
  (∀ u ∈ b.userOrders, oid ∉ u.2)

/-- Class invariants `OrderBook`'s methods maintain: levels hold at least
one order, prices in the sorted arrays have a level, and user order-id
sets are nonempty. -/
def bookWF (b : OrderBook) : Prop :=
  (∀ l ∈ b.bidLevels, l.2.orders ≠ []) ∧
  (∀ l ∈ b.askLevels, l.2.orders ≠ []) ∧
  (∀ p ∈ b.bidPrices, (assocGet b.bidLevels p).isSome = true) ∧
  (∀ p ∈ b.askPrices, (assocGet b.askLevels p).isSome = true) ∧
  (∀ u ∈ b.userOrders, u.2 ≠ [])

/-- Looking up a key right after setting it yields the new value. -/
theorem assocGet_set_self {α β : Type} [DecidableEq α]
    (m : List (α × β)) (k : α) (v : β) :
    assocGet (assocSet m k v) k = some v := by
  induction m with
  | nil => simp [assocSet, assocGet]
  | cons e rest ih =>
      by_cases hk : e.1 = k
      · simp [assocSet, assocGet, hk]
      · simp [assocSet, assocGet, hk, ih]

/-- Setting a key twice keeps only the second value. -/
theorem assocSet_assocSet {α β : Type} [DecidableEq α]
    (m : List (α × β)) (k : α) (v w : β) :
    assocSet (assocSet m k v) k w = assocSet m k w := by
  induction m with
  | nil => simp [assocSet]
  | cons e rest ih =>
      by_cases hk : e.1 = k
      · simp [assocSet, hk]
      · simp [assocSet, hk, ih]

/-- Setting a key back to its current value is the identity. -/
theorem assocSet_get_self {α β : Type} [DecidableEq α]
    (m : List (α × β)) (k : α) (v : β) (h : assocGet m k = some v) :
    assocSet m k v = m := by
  induction m with
  | nil => simp [assocGet] at h
  | cons e rest ih =>
      rcases e with ⟨k', v'⟩
      by_cases hk : k' = k
      · simp [assocGet, hk] at h
        simp [assocSet, hk, h]
      · simp only [assocGet, if_neg hk] at h
        simp [assocSet, hk, ih h]

/-- Deleting a freshly set key restores the map. -/
theorem assocDelete_set_fresh {α β : Type} [DecidableEq α]
    (m : List (α × β)) (k : α) (v : β) (h : assocGet m k = none) :
    assocDelete (assocSet m k v) k = m := by
  induction m with
  | nil => simp [assocSet, assocDelete]
  | cons e rest ih =>
      by_cases hk : e.1 = k
      · simp [assocGet, hk] at h
      · simp only [assocGet, if_neg hk] at h
        simp [assocSet, assocDelete, hk, ih h]

/-- A getter hit names an entry of the map. -/
theorem assocGet_mem {α β : Type} [DecidableEq α]
    (m : List (α × β)) (k : α) (v : β) (h : assocGet m k = some v) :
    (k, v) ∈ m := by
  induction m with
  | nil => simp [assocGet] at h
  | cons e rest ih =>
      rcases e with ⟨k', v'⟩
      by_cases hk : k' = k
      · simp [assocGet, hk] at h
        subst hk
        subst h
        exact List.mem_cons_self _ _
      · simp only [assocGet, if_neg hk] at h
        exact List.mem_cons_of_mem _ (ih h)

/-- Splicing a freshly inserted price out of the sorted array restores it. -/
theorem erasePrice_insertPrice (descending : Bool) (p : ℚ) (l : List ℚ)
    (h : p ∉ l) :
    erasePrice p (insertPrice descending p l) = l := by
  induction l with
  | nil => simp [insertPrice, erasePrice]
  | cons q rest ih =>
      have hq : q ≠ p := fun e => h (e ▸ List.mem_cons_self q rest)
      by_cases hc : (if descending then p < q else q < p)
      · simp [insertPrice, hc, erasePrice, hq,
          ih (fun hm => h (List.mem_cons_of_mem _ hm))]
      · simp [insertPrice, hc, erasePrice]

/-- Deleting a freshly added element from an id set restores it. -/
theorem setDelete_setAdd (s : List String) (x : String) (h : x ∉ s) :
    setDelete (setAdd s x) x = s := by
  unfold setAdd
  rw [if_neg h]
  induction s with
  | nil => simp [setDelete]
  | cons y rest ih =>
      have hy : y ≠ x := fun e => h (e ▸ List.mem_cons_self y rest)
      simp [setDelete, hy, ih (fun hm => h (List.mem_cons_of_mem _ hm))]

/-- Splicing a freshly pushed order out of a level's sequence restores it. -/
theorem eraseOrderById_append (os : List BookOrder) (o : BookOrder)
    (h : ∀ x ∈ os, x.id ≠ o.id) :
    eraseOrderById (os ++ [o]) o.id = os := by
  induction os with
  | nil => simp [eraseOrderById]
  | cons x rest ih =>
      have hx : x.id ≠ o.id := h x (List.mem_cons_self x rest)
      simp [eraseOrderById, hx, ih (fun y hy => h y (List.mem_cons_of_mem _ hy))]

/-- `addOrder`'s side update followed by `removeOrder`'s side update is the
identity on a well-formed side that does not yet hold the order's id. -/
theorem removeFromSide_addToSide (descending : Bool)
    (levels : List (ℚ × PriceLevel)) (prices : List ℚ) (o : BookOrder)
    (hfresh : ∀ l ∈ levels, ∀ x ∈ l.2.orders, x.id ≠ o.id)
    (hwf : ∀ l ∈ levels, l.2.orders ≠ [])
    (hpr : assocGet levels o.price = none → o.price ∉ prices) :
    removeFromSide (addToSide descending levels prices o).1
        (addToSide descending levels prices o).2 o = some (levels, prices) := by
  cases hl : assocGet levels o.price with
  | some level =>
      obtain ⟨lp, lo, lq⟩ := level
      have hmem := assocGet_mem levels o.price ⟨lp, lo, lq⟩ hl
      have hids : ∀ x ∈ lo, x.id ≠ o.id := fun x hx => hfresh _ hmem x hx
      have hne : lo ≠ [] := hwf _ hmem
      have hany : ((lo ++ [o]).any fun x => decide (x.id = o.id)) = true := by
        simp
      have hrl : removeFromLevel
          { price := lp, orders := lo ++ [o], totalQuantity := lq + o.quantity } o
          = { price := lp, orders := lo, totalQuantity := lq } := by
        unfold removeFromLevel
        rw [if_pos hany]
        simp [eraseOrderById_append lo o hids]
      have hempty : lo.isEmpty = false := by
        cases ho : lo with
        | nil => exact absurd ho hne
        | cons a l => rfl
      simp only [addToSide, hl]
      simp only [removeFromSide, assocGet_set_self, hrl, hempty]
      rw [assocSet_assocSet, assocSet_get_self levels o.price _ hl]
      simp
  | none =>
      have hp : o.price ∉ prices := hpr hl
      have hrl : removeFromLevel
          { price := o.price, orders := [o], totalQuantity := o.quantity } o
          = { price := o.price, orders := [],
              totalQuantity := o.quantity - o.quantity } := by
        unfold removeFromLevel
        rw [if_pos (by simp)]
        simp [eraseOrderById]
      simp only [addToSide, hl]
      simp only [removeFromSide, assocGet_set_self, hrl, List.isEmpty_nil, if_true]
      rw [assocDelete_set_fresh _ _ _ hl, erasePrice_insertPrice _ _ _ hp]

/-- C8: for every well-formed book and every matching order whose id is
nowhere on the book, `add` succeeds and a subsequent `remove` of that id
returns the order and restores the book exactly: same depth at every n,
same best bid and best ask, same per-user order sets, and a price level
that the removal emptied (absent before the add) no longer exists. -/
theorem orderbook_add_then_remove (b : OrderBook) (o : BookOrder)
    (hmkt : o.marketId = b.marketId) (hout : o.outcome = b.outcome)
    (hfree : idFreeOfBook b o.id) (hwf : bookWF b) :
    ∃ b', addOrder b o = Except.ok b' ∧
      removeOrder b' o.id = (some o, b) ∧
      (∀ n, getDepth (removeOrder b' o.id).2 n = getDepth b n) ∧
      getBestBid (removeOrder b' o.id).2 = getBestBid b ∧
      getBestAsk (removeOrder b' o.id).2 = getBestAsk b ∧
      (∀ u, getOrdersByUser (removeOrder b' o.id).2 u = getOrdersByUser b u) ∧
      (assocGet (sideLevels b o.side) o.price = none →
        assocGet (sideLevels (removeOrder b' o.id).2 o.side) o.price = none ∧
        o.price ∉ sidePrices (removeOrder b' o.id).2 o.side) := by
  obtain ⟨hmap, hbidIds, haskIds, huserIds⟩ := hfree
  obtain ⟨hbidNe, haskNe, hbidPr, haskPr, huserNe⟩ := hwf
  have hcond1 : ¬¬ (o.marketId = b.marketId ∧ o.outcome = b.outcome) :=
    not_not_intro ⟨hmkt, hout⟩
  have hcond2 : ¬ ((assocGet b.orderMap o.id).isSome = true) := by
    rw [hmap]
    simp
  have hdelO : assocDelete (assocSet b.orderMap o.id o) o.id = b.orderMap :=
    assocDelete_set_fresh _ _ _ hmap
  cases hside : o.side with
  | bid =>
      have hsideRt := removeFromSide_addToSide true b.bidLevels b.bidPrices o
        hbidIds hbidNe
        (fun hnone hp => by
          have h2 := hbidPr o.price hp
          rw [hnone] at h2
          simp at h2)
      have hadd : addOrder b o = Except.ok
          { b with
            bidLevels := (addToSide true b.bidLevels b.bidPrices o).1,
            bidPrices := (addToSide true b.bidLevels b.bidPrices o).2,
            orderMap := assocSet b.orderMap o.id o,
            userOrders := assocSet b.userOrders o.userAddress
              (setAdd (match assocGet b.userOrders o.userAddress with
                | some s => s
                | none => []) o.id) } := by
        unfold addOrder
        rw [if_neg hcond1, if_neg hcond2, hside]
      have hrem : removeOrder
          { b with
            bidLevels := (addToSide true b.bidLevels b.bidPrices o).1,
            bidPrices := (addToSide true b.bidLevels b.bidPrices o).2,
            orderMap := assocSet b.orderMap o.id o,
            userOrders := assocSet b.userOrders o.userAddress
              (setAdd (match assocGet b.userOrders o.userAddress with
                | some s => s
                | none => []) o.id) } o.id = (some o, b) := by
        rcases hu : assocGet b.userOrders o.userAddress with _ | s
        · simp only [removeOrder, hu, hside, assocGet_set_self, hsideRt,
            Option.map_some', hdelO, setAdd, setDelete,
            assocDelete_set_fresh b.userOrders o.userAddress [o.id] hu]
          simp [assocDelete_set_fresh b.userOrders o.userAddress [o.id] hu]
        · have hsmem := assocGet_mem b.userOrders o.userAddress s hu
          have hs : o.id ∉ s := huserIds _ hsmem
          have hsne : s ≠ [] := huserNe _ hsmem
          have hsempty : s.isEmpty = false := by
            cases hs0 : s with
            | nil => exact absurd hs0 hsne
            | cons a l => rfl
          simp only [removeOrder, hu, hside, assocGet_set_self, hsideRt,
            Option.map_some', hdelO, setDelete_setAdd s o.id hs, hsempty,
            assocSet_assocSet, assocSet_get_self b.userOrders o.userAddress s hu]
          simp
      refine ⟨_, hadd, hrem, fun n => by rw [hrem], by rw [hrem], by rw [hrem],
        fun u => by rw [hrem], fun h1 => ?_⟩
      rw [hrem]
      simp only [sideLevels, sidePrices] at h1 ⊢
      refine ⟨h1, fun hp => ?_⟩
      have h2 := hbidPr o.price hp
      rw [h1] at h2
      simp at h2
  | ask =>
      have hsideRt := removeFromSide_addToSide false b.askLevels b.askPrices o
        haskIds haskNe
        (fun hnone hp => by
          have h2 := haskPr o.price hp
          rw [hnone] at h2
          simp at h2)
      have hadd : addOrder b o = Except.ok
          { b with
            askLevels := (addToSide false b.askLevels b.askPrices o).1,
            askPrices := (addToSide false b.askLevels b.askPrices o).2,
            orderMap := assocSet b.orderMap o.id o,
            userOrders := assocSet b.userOrders o.userAddress
              (setAdd (match assocGet b.userOrders o.userAddress with
                | some s => s
                | none => []) o.id) } := by
        unfold addOrder
        rw [if_neg hcond1, if_neg hcond2, hside]
      have hrem : removeOrder
          { b with
            askLevels := (addToSide false b.askLevels b.askPrices o).1,
            askPrices := (addToSide false b.askLevels b.askPrices o).2,
            orderMap := assocSet b.orderMap o.id o,
            userOrders := assocSet b.userOrders o.userAddress
              (setAdd (match assocGet b.userOrders o.userAddress with
                | some s => s
                | none => []) o.id) } o.id = (some o, b) := by
        rcases hu : assocGet b.userOrders o.userAddress with _ | s
        · simp only [removeOrder, hu, hside, assocGet_set_self, hsideRt,
            Option.map_some', hdelO, setAdd, setDelete,
            assocDelete_set_fresh b.userOrders o.userAddress [o.id] hu]
          simp [assocDelete_set_fresh b.userOrders o.userAddress [o.id] hu]
        · have hsmem := assocGet_mem b.userOrders o.userAddress s hu
          have hs : o.id ∉ s := huserIds _ hsmem
          have hsne : s ≠ [] := huserNe _ hsmem
          have hsempty : s.isEmpty = false := by
            cases hs0 : s with
            | nil => exact absurd hs0 hsne
            | cons a l => rfl
          simp only [removeOrder, hu, hside, assocGet_set_self, hsideRt,
            Option.map_some', hdelO, setDelete_setAdd s o.id hs, hsempty,
            assocSet_assocSet, assocSet_get_self b.userOrders o.userAddress s hu]
          simp
      refine ⟨_, hadd, hrem, fun n => by rw [hrem], by rw [hrem], by rw [hrem],
        fun u => by rw [hrem], fun h1 => ?_⟩
      rw [hrem]
      simp only [sideLevels, sidePrices] at h1 ⊢
      refine ⟨h1, fun hp => ?_⟩
      have h2 := haskPr o.price hp
      rw [h1] at h2
      simp at h2

/-- A concrete resting bid used by the order book witness (prices are the
integers the order book test file uses). -/
def witnessRestingBid : BookOrder :=
  { id := "1", userAddress := "user1", side := BookSide.bid, price := 50,
    quantity := 100, timestamp := 1000, marketId := "market-1", outcome := 0 }

/-- A concrete one-level book used by the order book witness, with all
indices consistent. -/
def witnessBook : OrderBook :=
  { marketId := "market-1", outcome := 0,
    bidLevels := [(50,
      { price := 50, orders := [witnessRestingBid], totalQuantity := 100 })],
    askLevels := [],
    bidPrices := [50],
    askPrices := [],
    orderMap := [("1", witnessRestingBid)],
    userOrders := [("user1", ["1"])] }

/-- A concrete fresh ask used by the order book witness. -/
def witnessFreshAsk : BookOrder :=
  { id := "2", userAddress := "user2", side := BookSide.ask, price := 60,
    quantity := 40, timestamp := 2000, marketId := "market-1", outcome := 0 }

/-- Witness for C8: the roundtrip evaluated on a one-level book and a fresh
ask. -/
theorem orderbook_add_then_remove_witness :
    ∃ b', addOrder witnessBook witnessFreshAsk = Except.ok b' ∧
      removeOrder b' witnessFreshAsk.id = (some witnessFreshAsk, witnessBook) ∧
      (∀ n, getDepth (removeOrder b' witnessFreshAsk.id).2 n
        = getDepth witnessBook n) ∧
      getBestBid (removeOrder b' witnessFreshAsk.id).2 = getBestBid witnessBook ∧
      getBestAsk (removeOrder b' witnessFreshAsk.id).2 = getBestAsk witnessBook ∧
      (∀ u, getOrdersByUser (removeOrder b' witnessFreshAsk.id).2 u
        = getOrdersByUser witnessBook u) ∧
      (assocGet (sideLevels witnessBook witnessFreshAsk.side)
          witnessFreshAsk.price = none →
        assocGet (sideLevels (removeOrder b' witnessFreshAsk.id).2
            witnessFreshAsk.side) witnessFreshAsk.price = none ∧
        witnessFreshAsk.price ∉ sidePrices (removeOrder b' witnessFreshAsk.id).2
          witnessFreshAsk.side) :=
  orderbook_add_then_remove witnessBook witnessFreshAsk rfl rfl
    (by unfold idFreeOfBook; decide) (by unfold bookWF; decide)
